import Mathlib

/-!
Shallow embedding of the VoiceMasking backend (src/backend/audio_processor.py,
advanced_effects.py, watermark.py, voice_profiles.py) and proofs about the
claims of its specification.

Audio samples are modelled as rationals (`ℚ`): every arithmetic step of the
embedded code paths is exact rational arithmetic, except calls into external
numeric libraries (numpy FFT, scipy filters, transcendental functions), which
are modelled as explicit function parameters so every theorem quantifies over
their behaviour.  The Python `int()` conversion (truncation toward zero) is modelled by
`ratTrunc`.
-/

namespace VoiceMasking

/-- Python `int()` applied to a rational: truncation toward zero. -/
def ratTrunc (q : ℚ) : ℤ := if 0 ≤ q then ⌊q⌋ else ⌈q⌉

/-- `np.max(np.abs(v))`, totalised to `0` on the empty list (where numpy
raises instead). -/
def maxAbs (v : List ℚ) : ℚ := v.foldr (fun a acc => max |a| acc) 0

/-- `np.linspace(a, b, n)` (endpoint included, `n` evenly spaced points). -/
def linspace (a b : ℚ) (n : ℕ) : List ℚ :=
  if n = 0 then []
  else if n = 1 then [a]
  else (List.range n).map (fun k : ℕ => a + (b - a) * (k : ℚ) / ((n : ℚ) - 1))

/-- `np.interp(q, np.arange(len x), x)`: linear interpolation of the samples
`x` placed on the integer grid `0, 1, …, len x - 1`, clamped at both ends.
Totalised with `getD _ 0` (numpy raises on an empty grid). -/
def interpGrid (x : List ℚ) (q : ℚ) : ℚ :=
  if q ≤ 0 then x.getD 0 0
  else if ((x.length : ℚ) - 1) ≤ q then x.getD (x.length - 1) 0
  else
    let i := (⌊q⌋).toNat
    let xi := x.getD i 0
    let xi1 := x.getD (i + 1) 0
    xi + (xi1 - xi) * (q - (i : ℚ))

/-- `AudioProcessor.pitch_shift_audio` (audio_processor.py lines 66–95):
short-circuit at factor 1.0, otherwise resample by linear interpolation over
`int(len/factor)` evenly spaced positions and pad with zeros / truncate back
to the original length. -/
def pitch_shift_audio (shift_factor : ℚ) (audio_data : List ℚ) : List ℚ :=
  if shift_factor = 1 then audio_data
  else
    let original_length := audio_data.length
    let new_length := (ratTrunc ((original_length : ℚ) / shift_factor)).toNat
    let indices := linspace 0 ((original_length : ℚ) - 1) new_length
    let shifted := indices.map (interpGrid audio_data)
    if original_length < shifted.length then shifted.take original_length
    else shifted ++ List.replicate (original_length - shifted.length) 0

/-- Complex value of the spectral remap, as a pair (real, imaginary). -/
abbrev Cplx : Type := ℚ × ℚ

/-- The remap loop of `AudioProcessor.apply_formant_shift` (audio_processor.py
lines 116–122): start from a zero spectrum; for every index `i` whose
`np.fft.fftfreq` entry is strictly positive (exactly the indices
`1 ≤ i < (n+1)/2`, for any positive sample rate), move bin `i` to bin
`int(i * shift_factor)` whenever that index is below `n`.  A negative target
index (possible only for a negative factor) follows the Python wrap-around
indexing `n + j`, clamped to `0` where Python would raise `IndexError`. -/
def formant_remap (shift_factor : ℚ) (F : List Cplx) : List Cplx :=
  let n := F.length
  (List.range n).foldl
    (fun acc i =>
      if 1 ≤ i ∧ i < (n + 1) / 2 then
        let j := ratTrunc ((i : ℚ) * shift_factor)
        if j < (n : ℤ) then
          acc.set (if 0 ≤ j then j.toNat else ((n : ℤ) + j).toNat) (F.getD i (0, 0))
        else acc
      else acc)
    (List.replicate n ((0 : ℚ), (0 : ℚ)))

/-- `AudioProcessor.apply_formant_shift` (audio_processor.py lines 97–124):
short-circuit at factor 1.0; otherwise remap the positive-frequency FFT bins
and take the real part of the inverse FFT.  `np.fft.fft` and
`np.real(np.fft.ifft(·))` are external numerics, passed as parameters. -/
def apply_formant_shift (fft : List ℚ → List Cplx) (ifftRe : List Cplx → List ℚ)
    (shift_factor : ℚ) (audio_data : List ℚ) : List ℚ :=
  if shift_factor = 1 then audio_data
  else ifftRe (formant_remap shift_factor (fft audio_data))

/-- `scipy.signal.square` at phase `2π·u`: `1` on the first half of each
cycle, `-1` on the second. -/
def squareWave (u : ℚ) : ℚ := if Int.fract u < 1/2 then 1 else -1

/-- `AudioProcessor.apply_robot_effect` (audio_processor.py lines 126–148):
amplitude-modulate by a 200 Hz square-wave carrier scaled by 0.5, then
band-pass 300–3000 Hz with a 4th-order Butterworth filter applied by
`scipy.signal.filtfilt` (external, passed as the parameter `bandFilt`). -/
def apply_robot_effect (bandFilt : List ℚ → List ℚ) (sample_rate : ℚ)
    (audio_data : List ℚ) : List ℚ :=
  let carrier := (List.range audio_data.length).map
    (fun i : ℕ => squareWave (200 * (i : ℚ) / sample_rate))
  let modulated := List.zipWith (fun s c => s * c * (1/2)) audio_data carrier
  bandFilt modulated

/-- The external numeric routines used by `AudioProcessor.transform_audio`:
`np.fft.fft`, `np.real(np.fft.ifft(·))` and the Butterworth band-pass of the
robot effect.  Theorems quantify over them. -/
structure ExtDSP where
  fft : List ℚ → List Cplx
  ifftRe : List Cplx → List ℚ
  robotBandFilt : List ℚ → List ℚ

/-- The numpy FFT, its inverse and `filtfilt` all return arrays of the same
length as their input; this is the only fact about the external numerics the
length claims rely on. -/
def ExtDSP.LenPreserving (ext : ExtDSP) : Prop :=
  (∀ v, (ext.fft v).length = v.length) ∧
  (∀ v, (ext.ifftRe v).length = v.length) ∧
  (∀ v, (ext.robotBandFilt v).length = v.length)

/-- A trivial length-preserving instantiation of the external numerics, used
to evaluate the embedded code on concrete inputs. -/
def idExt : ExtDSP where
  fft := fun v => v.map (fun a => (a, 0))
  ifftRe := fun v => v.map Prod.fst
  robotBandFilt := fun v => v

/-- The mutable voice-transformation fields of `AudioProcessor`
(audio_processor.py lines 26–41). -/
structure ProcState where
  sample_rate : ℚ
  pitch_shift : ℚ
  formant_shift : ℚ
  voice_profile : String
deriving DecidableEq

/-- `AudioProcessor.__init__` defaults: sample rate 44100, factors 1.0,
profile name "original". -/
def initState : ProcState :=
  { sample_rate := 44100, pitch_shift := 1, formant_shift := 1,
    voice_profile := "original" }

/-- The hardcoded profile table of `AudioProcessor.set_voice_profile`
(audio_processor.py lines 53–60), as (name, pitch_shift, formant_shift). -/
def processor_profiles : List (String × ℚ × ℚ) :=
  [("original", 1, 1), ("male", 4/5, 9/10), ("female", 13/10, 11/10),
   ("child", 3/2, 6/5), ("robot", 1, 1), ("elderly", 9/10, 19/20)]

/-- `AudioProcessor.set_voice_profile` (audio_processor.py lines 43–64): the
profile name is always stored; the shift factors are updated only when the
name is a key of the hardcoded table. -/
def set_voice_profile (s : ProcState) (profile : String) : ProcState :=
  let s1 := { s with voice_profile := profile }
  match processor_profiles.find? (fun p => p.1 == profile) with
  | some p => { s1 with pitch_shift := p.2.1, formant_shift := p.2.2 }
  | none => s1

/-- The final normalization step of `AudioProcessor.transform_audio`
(audio_processor.py lines 174–177): when the peak magnitude is positive,
rescale so the peak becomes 0.8; otherwise leave the block untouched. -/
def normalize_block (transformed : List ℚ) : List ℚ :=
  let max_val := maxAbs transformed
  if 0 < max_val then transformed.map (fun v => v / max_val * (4/5))
  else transformed

/-- `AudioProcessor.transform_audio` (audio_processor.py lines 150–179):
conditional pitch shift, conditional formant shift, robot special effect for
the "robot" profile, then normalization. -/
def transform_audio (ext : ExtDSP) (s : ProcState) (audio_data : List ℚ) :
    List ℚ :=
  let t1 := if s.pitch_shift ≠ 1 then pitch_shift_audio s.pitch_shift audio_data
            else audio_data
  let t2 := if s.formant_shift ≠ 1 then
              apply_formant_shift ext.fft ext.ifftRe s.formant_shift t1
            else t1
  let t3 := if s.voice_profile = "robot" then
              apply_robot_effect ext.robotBandFilt s.sample_rate t2
            else t2
  normalize_block t3

/-- The fields of `VoiceProfile` (voice_profiles.py lines 12–21) relevant to
the transformation parameters (display/description strings omitted). -/
structure VoiceProfile where
  name : String
  pitch_shift : ℚ
  formant_shift : ℚ
  special_effects : List String
deriving DecidableEq

/-- The registry defaults of `VoiceProfileManager._load_default_profiles`
(voice_profiles.py lines 50–146), as (name, pitch_shift, formant_shift,
special_effects). -/
def default_profiles : List VoiceProfile :=
  [⟨"original", 1, 1, []⟩,
   ⟨"male_deep", 7/10, 17/20, []⟩,
   ⟨"female_high", 7/5, 23/20, []⟩,
   ⟨"child", 8/5, 5/4, ["brightness"]⟩,
   ⟨"elderly", 9/10, 19/20, ["tremolo", "roughness"]⟩,
   ⟨"robot", 1, 1, ["vocoder", "metallic"]⟩,
   ⟨"alien", 6/5, 13/10, ["reverb", "chorus", "pitch_modulation"]⟩,
   ⟨"monster", 3/5, 4/5, ["distortion", "growl"]⟩,
   ⟨"whisper", 19/20, 21/20, ["noise_reduction", "softness"]⟩,
   ⟨"announcer", 17/20, 9/10, ["compression", "eq_boost"]⟩]

/-- Lookup in the registry of `VoiceProfileManager` right after
`_load_default_profiles`. -/
def manager_find (name : String) : Option VoiceProfile :=
  default_profiles.find? (fun p => p.name == name)

/-- State transition of Python `queue.Queue(maxsize).put_nowait(item)`:
`Full` is raised (`none`) exactly when `0 < maxsize ∧ maxsize ≤ length`;
otherwise the item is appended at the tail. -/
def put_nowait {α : Type} (maxsize : ℕ) (q : List α) (item : α) :
    Option (List α) :=
  if 0 < maxsize ∧ maxsize ≤ q.length then none else some (q ++ [item])

/-- Queue action of `AudioProcessor.audio_input_callback` (audio_processor.py
lines 192–196): `put_nowait` the captured frame; on `queue.Full` the NEW
frame is discarded (a message is printed) and the queue is left unchanged. -/
def audio_input_callback {α : Type} (maxsize : ℕ) (q : List α) (frame : α) :
    List α :=
  match put_nowait maxsize q frame with
  | some q2 => q2
  | none => q

/-- `AudioProcessor.__init__` (audio_processor.py line 29) creates the input
queue as `queue.Queue()`, i.e. with the default `maxsize = 0`: unbounded. -/
def input_queue_maxsize : ℕ := 0

/-- External numerics used by `EmotionModulator._apply_eq`
(advanced_effects.py): the power `10 ** (g/20)`, π, sine, cosine, and
`scipy.signal.filtfilt b a x`.  Theorems quantify over them. -/
structure FilterLib where
  pow10 : ℚ → ℚ
  piQ : ℚ
  sinQ : ℚ → ℚ
  cosQ : ℚ → ℚ
  filtfilt : List ℚ → List ℚ → List ℚ → List ℚ

/-- A trivial instantiation of `FilterLib`, used to evaluate the embedded
code on concrete inputs. -/
def idFilterLib : FilterLib where
  pow10 := fun _ => 1
  piQ := 3
  sinQ := fun _ => 0
  cosQ := fun _ => 1
  filtfilt := fun _ _ x => x

/-- One band of `EmotionModulator._apply_eq` (advanced_effects.py lines
181–209): when the frequency normalized by the Nyquist frequency lies
strictly inside (0, 1), design the peaking biquad (Q = 1) and apply it with
zero-phase `filtfilt`; otherwise the signal passes through unmodified. -/
def eq_band_step (lib : FilterLib) (sample_rate : ℚ) (processed : List ℚ)
    (band : ℚ × ℚ) : List ℚ :=
  let gain_linear := lib.pow10 (band.2 / 20)
  let nyquist := sample_rate / 2
  let normalized_freq := band.1 / nyquist
  if 0 < normalized_freq ∧ normalized_freq < 1 then
    let Q : ℚ := 1
    let w0 := 2 * lib.piQ * normalized_freq
    let alpha := lib.sinQ w0 / (2 * Q)
    let A := gain_linear
    let b0 := 1 + alpha * A
    let b1 := -2 * lib.cosQ w0
    let b2 := 1 - alpha * A
    let a0 := 1 + alpha / A
    let a1 := -2 * lib.cosQ w0
    let a2 := 1 - alpha / A
    lib.filtfilt [b0/a0, b1/a0, b2/a0] [1, a1/a0, a2/a0] processed
  else processed

/-- `EmotionModulator._apply_eq` (advanced_effects.py lines 168–211): fold
the band step over the EQ bands. -/
def apply_eq (lib : FilterLib) (sample_rate : ℚ) (audio_data : List ℚ)
    (eq_bands : List (ℚ × ℚ)) : List ℚ :=
  eq_bands.foldl (eq_band_step lib sample_rate) audio_data

/-- Feedback loop of `EnvironmentalEffects.apply_echo` (advanced_effects.py
lines 292–294): for every position from `delay` to the end of the buffer,
add `feedback` times the already-written sample `delay` positions back. -/
def echo_feedback_loop (feedback : ℚ) (delay : ℕ) (audio_len : ℕ)
    (buf : List ℚ) : List ℚ :=
  (List.range' delay (buf.length - delay)).foldl
    (fun b (i : ℕ) =>
      if (i : ℤ) - (delay : ℤ) < (audio_len : ℤ) then
        b.set i (b.getD i 0 + feedback * b.getD (i - delay) 0)
      else b)
    buf

/-- `EnvironmentalEffects.apply_echo` (advanced_effects.py lines 268–299):
when the delay in samples reaches the block length the input is returned
unchanged; otherwise run the feedback comb over a zero-padded buffer, trim to
the original length and mix dry/wet. -/
def apply_echo (sample_rate : ℚ) (delay_ms feedback wet_level : ℚ)
    (audio_data : List ℚ) : List ℚ :=
  let delay_samples := ratTrunc (delay_ms * sample_rate / 1000)
  if (audio_data.length : ℤ) ≤ delay_samples then audio_data
  else
    let d := delay_samples.toNat
    let buf0 := audio_data ++ List.replicate d 0
    let buf1 := echo_feedback_loop feedback d audio_data.length buf0
    let echo_audio := buf1.take audio_data.length
    let dry_level := 1 - wet_level
    List.zipWith (fun x e => dry_level * x + wet_level * e) audio_data echo_audio

/-- `AudioWatermark.detect_watermark` (watermark.py lines 106–155).  The body
after the minimum-length guard (FFT energy analysis over floating-point data)
is modelled by the parameter `analyze`, over which the theorem quantifies; the
float literal `0.1` is modelled by the rational 1/10. -/
def detect_watermark {α : Type} (analyze : List ℚ → Bool × Option α)
    (sample_rate : ℚ) (audio_data : List ℚ) : Bool × Option α :=
  if (audio_data.length : ℚ) < sample_rate * (1/10) then (false, none)
  else analyze audio_data

/-- `AudioWatermark.embed_watermark` (watermark.py lines 62–104): empty input
is returned immediately; otherwise a watermark tone for the full duration is
generated (`generate_watermark_signal`, a phase-modulated sine built from an
MD5 metadata hash — transcendental, modelled by the parameter `generate`),
tiled or truncated to the input length, added to the signal, and the sum is
rescaled to peak 0.95 when its peak exceeds 1. -/
def embed_watermark (generate : ℚ → List ℚ) (sample_rate : ℚ)
    (audio_data : List ℚ) : List ℚ :=
  if audio_data.length = 0 then audio_data
  else
    let duration := (audio_data.length : ℚ) / sample_rate
    let w0 := generate duration
    let w1 :=
      if audio_data.length < w0.length then w0.take audio_data.length
      else if w0.length < audio_data.length then
        let repeats := (⌈(audio_data.length : ℚ) / (w0.length : ℚ)⌉).toNat
        ((List.replicate repeats w0).flatten).take audio_data.length
      else w0
    let watermarked := List.zipWith (· + ·) audio_data w1
    let max_val := maxAbs watermarked
    if 1 < max_val then watermarked.map (fun v => v / max_val * (19/20))
    else watermarked

/-! ## Helper lemmas -/

theorem maxAbs_nonneg (v : List ℚ) : 0 ≤ maxAbs v := by
  induction v with
  | nil => simp [maxAbs]
  | cons a t ih => exact le_max_of_le_right ih

theorem abs_le_maxAbs {v : List ℚ} {a : ℚ} (h : a ∈ v) : |a| ≤ maxAbs v := by
  induction v with
  | nil => cases h
  | cons b t ih =>
      rcases List.mem_cons.mp h with rfl | hmem
      · exact le_max_left _ _
      · exact le_max_of_le_right (ih hmem)

theorem maxAbs_le {v : List ℚ} {c : ℚ} (h0 : 0 ≤ c) (h : ∀ a ∈ v, |a| ≤ c) :
    maxAbs v ≤ c := by
  induction v with
  | nil => exact h0
  | cons b t ih =>
      exact max_le (h b (List.mem_cons_self b t))
        (ih (fun a ha => h a (List.mem_cons_of_mem b ha)))

theorem eq_zero_of_maxAbs_eq_zero {v : List ℚ} (h : maxAbs v = 0) :
    ∀ a ∈ v, a = 0 := by
  intro a ha
  have h1 : |a| ≤ 0 := h ▸ abs_le_maxAbs ha
  exact abs_nonpos_iff.mp h1

@[simp] theorem linspace_length (a b : ℚ) (n : ℕ) : (linspace a b n).length = n := by
  unfold linspace
  by_cases h0 : n = 0
  · simp [h0]
  · by_cases h1 : n = 1
    · simp [h0, h1]
    · rw [if_neg h0, if_neg h1, List.length_map, List.length_range]

theorem pitch_shift_audio_length (f : ℚ) (x : List ℚ) :
    (pitch_shift_audio f x).length = x.length := by
  unfold pitch_shift_audio
  by_cases h : f = 1
  · simp [h]
  · simp only [if_neg h, List.length_map, linspace_length]
    by_cases hlt : x.length < (ratTrunc ((x.length : ℚ) / f)).toNat
    · simp only [if_pos hlt, List.length_take, List.length_map, linspace_length]
      omega
    · simp only [if_neg hlt, List.length_append, List.length_replicate,
        List.length_map, linspace_length]
      omega

theorem foldl_length_eq {γ β : Type} (step : List γ → β → List γ)
    (hstep : ∀ acc b, (step acc b).length = acc.length) :
    ∀ (l : List β) (acc : List γ), (l.foldl step acc).length = acc.length := by
  intro l
  induction l with
  | nil => intro acc; rfl
  | cons b t ih => intro acc; rw [List.foldl_cons, ih, hstep]

theorem formant_remap_length (f : ℚ) (F : List Cplx) :
    (formant_remap f F).length = F.length := by
  unfold formant_remap
  rw [foldl_length_eq]
  · exact List.length_replicate _ _
  · intro acc i
    dsimp only
    split
    · split
      · exact List.length_set _ _ _
      · rfl
    · rfl

theorem apply_formant_shift_length (fft : List ℚ → List Cplx)
    (ifftRe : List Cplx → List ℚ)
    (hf : ∀ v, (fft v).length = v.length)
    (hi : ∀ v, (ifftRe v).length = v.length) (g : ℚ) (x : List ℚ) :
    (apply_formant_shift fft ifftRe g x).length = x.length := by
  unfold apply_formant_shift
  split
  · rfl
  · rw [hi, formant_remap_length, hf]

theorem apply_robot_effect_length (bandFilt : List ℚ → List ℚ)
    (hb : ∀ v, (bandFilt v).length = v.length) (sr : ℚ) (x : List ℚ) :
    (apply_robot_effect bandFilt sr x).length = x.length := by
  unfold apply_robot_effect
  rw [hb]
  simp [List.length_zipWith]

theorem normalize_block_length (y : List ℚ) :
    (normalize_block y).length = y.length := by
  unfold normalize_block
  by_cases h : 0 < maxAbs y
  · simp only [if_pos h, List.length_map]
  · simp only [if_neg h]

theorem normalize_block_peak (y : List ℚ) : maxAbs (normalize_block y) ≤ 1 := by
  unfold normalize_block
  by_cases h : 0 < maxAbs y
  · rw [if_pos h]
    apply maxAbs_le (by norm_num)
    intro a ha
    rw [List.mem_map] at ha
    obtain ⟨v, hv, rfl⟩ := ha
    have hvm : |v| ≤ maxAbs y := abs_le_maxAbs hv
    have h1 : |v / maxAbs y| ≤ 1 := by
      rw [abs_div, abs_of_pos h]
      exact div_le_one_of_le₀ hvm (le_of_lt h)
    calc |v / maxAbs y * (4/5)| = |v / maxAbs y| * |(4/5 : ℚ)| := abs_mul _ _
      _ ≤ 1 * |(4/5 : ℚ)| := by
          exact mul_le_mul_of_nonneg_right h1 (abs_nonneg _)
      _ ≤ 1 := by
          rw [one_mul, abs_of_pos (by norm_num : (0:ℚ) < 4/5)]
          norm_num
  · rw [if_neg h]
    have h0 := maxAbs_nonneg y
    linarith

theorem normalize_block_of_maxAbs_eq_zero {y : List ℚ} (h : maxAbs y = 0) :
    normalize_block y = y := by
  unfold normalize_block
  rw [h]
  simp

theorem idExt_lenPreserving : idExt.LenPreserving := by
  refine ⟨?_, ?_, ?_⟩ <;> intro v <;> simp [idExt]

/-- With both shift factors at 1.0 and a profile other than "robot", every
stage of `transform_audio` before the final normalization is bypassed. -/
theorem transform_audio_factors_one (ext : ExtDSP) (s : ProcState)
    (x : List ℚ) (hp : s.pitch_shift = 1) (hf : s.formant_shift = 1)
    (hr : s.voice_profile ≠ "robot") :
    transform_audio ext s x = normalize_block x := by
  unfold transform_audio
  simp [hp, hf, hr]

theorem ite_length (c : Prop) [Decidable c] (g : List ℚ → List ℚ)
    (hg : ∀ v, (g v).length = v.length) (v : List ℚ) :
    (if c then g v else v).length = v.length := by
  split
  · exact hg v
  · rfl

/-! ## Claims -/

/-- Claim C1: for every input block and every positive pitch and formant
factor of the active profile, `transform_audio` returns a block of exactly
the same length as its input (given that the external FFT, inverse FFT and
band-pass routines are length-preserving, as the numpy/scipy ones are). -/
theorem C1_transform_preserves_length (ext : ExtDSP) (s : ProcState)
    (x : List ℚ) (hext : ext.LenPreserving) (_hx : 0 < x.length)
    (_hp : 0 < s.pitch_shift) (_hf : 0 < s.formant_shift) :
    (transform_audio ext s x).length = x.length := by
  obtain ⟨h1, h2, h3⟩ := hext
  unfold transform_audio
  dsimp only
  rw [normalize_block_length,
    ite_length _ _ (apply_robot_effect_length _ h3 _),
    ite_length _ _ (apply_formant_shift_length _ _ h1 h2 _),
    ite_length _ _ (pitch_shift_audio_length _)]

/-- Concrete instance of claim C1: the "male" profile factors on a
2-sample block. -/
theorem C1_transform_preserves_length_witness :
    (transform_audio idExt ⟨44100, 4/5, 9/10, "male"⟩ [1/2, 1/4]).length = 2 :=
  C1_transform_preserves_length idExt ⟨44100, 4/5, 9/10, "male"⟩ [1/2, 1/4]
    idExt_lenPreserving (by decide) (by norm_num) (by norm_num)

/-- Claim C2 is false as stated: with both factors at 1.0 and the default
profile, the block [0.5] is transformed to [0.8], not returned unchanged —
the final normalization rescales every nonzero block to peak 0.8. -/
theorem C2_identity_counterexample :
    transform_audio idExt initState [1/2] = [4/5] ∧
    transform_audio idExt initState [1/2] ≠ [1/2] := by
  have h := transform_audio_factors_one idExt initState [1/2] rfl rfl (by decide)
  have hval : transform_audio idExt initState [1/2] = [4/5] := by
    rw [h]
    simp only [normalize_block, maxAbs, List.foldr]
    norm_num [abs_of_nonneg]
  refine ⟨hval, ?_⟩
  rw [hval]
  intro hcontra
  have := List.head_eq_of_cons_eq hcontra
  norm_num at this

/-- Claim C2 (amended): when both factors equal 1.0 and the profile adds no
special effect, the pitch and formant stages are bypassed (no resampling
occurs, and `pitch_shift_audio` at factor 1 returns its input directly), but
the result is the final normalization of the input rather than the identity:
the input itself when its peak is zero, otherwise the input rescaled by 0.8
divided by its peak. -/
theorem C2_identity_amended (ext : ExtDSP) (s : ProcState) (x : List ℚ)
    (hp : s.pitch_shift = 1) (hf : s.formant_shift = 1)
    (hr : s.voice_profile ≠ "robot") :
    transform_audio ext s x = normalize_block x ∧
    pitch_shift_audio 1 x = x ∧
    (maxAbs x = 0 → transform_audio ext s x = x) ∧
    (0 < maxAbs x →
      transform_audio ext s x = x.map (fun v => v / maxAbs x * (4/5))) := by
  have hmain := transform_audio_factors_one ext s x hp hf hr
  refine ⟨hmain, by simp [pitch_shift_audio], ?_, ?_⟩
  · intro h0
    rw [hmain, normalize_block_of_maxAbs_eq_zero h0]
  · intro hpos
    rw [hmain]
    simp only [normalize_block]
    rw [if_pos hpos]

/-- Concrete instance of the amended claim C2 on the block [0.5]. -/
theorem C2_identity_amended_witness :
    transform_audio idExt initState [1/2] = normalize_block [1/2] ∧
    pitch_shift_audio 1 [1/2] = [1/2] ∧
    (maxAbs [1/2] = 0 → transform_audio idExt initState [1/2] = [1/2]) ∧
    (0 < maxAbs [1/2] →
      transform_audio idExt initState [1/2] =
        [1/2].map (fun v => v / maxAbs [1/2] * (4/5))) :=
  C2_identity_amended idExt initState [1/2] rfl rfl (by decide)

/-- Claim C3 exposes a code bug: the profile registry
(`VoiceProfileManager`) defines male_deep with pitch 0.7 and formant 0.85,
but `AudioProcessor.set_voice_profile` consults only its own hardcoded table,
which has no male_deep entry.  Selecting male_deep from the default state
therefore leaves both factors at 1.0, and the subsequent transform of a
1024-sample block applies no pitch or formant shift at all — only the final
normalization. -/
theorem C3_male_deep_not_applied :
    (set_voice_profile initState "male_deep").pitch_shift = 1 ∧
    (set_voice_profile initState "male_deep").formant_shift = 1 ∧
    manager_find "male_deep" = some ⟨"male_deep", 7/10, 17/20, []⟩ ∧
    transform_audio idExt (set_voice_profile initState "male_deep")
      (List.replicate 1024 (1/2)) =
      normalize_block (List.replicate 1024 (1/2)) := by
  refine ⟨rfl, rfl, rfl, ?_⟩
  exact transform_audio_factors_one _ _ _ rfl rfl (by decide)

/-- Claim C4 is false as stated: on a full bounded queue, the capture
callback discards the NEWLY submitted block and keeps the queue unchanged —
the oldest pending block stays, the new one is not kept. -/
theorem C4_submit_counterexample :
    audio_input_callback 1 [[(1 : ℚ)]] [2] = [[1]] ∧
    audio_input_callback 1 [[(1 : ℚ)]] [2] ≠ [[2]] := by
  constructor
  · decide
  · decide

/-- Claim C4 (amended): submission never blocks, and the code creates the
input queue unbounded (maxsize 0), so it is never full and every submitted
block is appended; had the queue been bounded and full, the newly submitted
block would be discarded with the queue left unchanged — no drop counter is
incremented (the code only prints a message), and the oldest block is not
dropped. -/
theorem C4_submit_amended (q : List (List ℚ)) (b : List ℚ) :
    audio_input_callback input_queue_maxsize q b = q ++ [b] ∧
    (∀ (m : ℕ) (q2 : List (List ℚ)) (b2 : List ℚ),
      0 < m → m ≤ q2.length → audio_input_callback m q2 b2 = q2) := by
  constructor
  · simp [audio_input_callback, put_nowait, input_queue_maxsize]
  · intro m q2 b2 hm hlen
    unfold audio_input_callback put_nowait
    rw [if_pos ⟨hm, hlen⟩]

/-- Concrete instance of the amended claim C4: unbounded submission appends;
a full bounded queue keeps its old content. -/
theorem C4_submit_amended_witness :
    audio_input_callback input_queue_maxsize [[(1 : ℚ)]] [2] = [[1], [2]] ∧
    audio_input_callback 2 [[(3 : ℚ)], [4]] [5] = [[3], [4]] := by
  obtain ⟨h1, h2⟩ := C4_submit_amended [[(1 : ℚ)]] [2]
  exact ⟨h1, h2 2 [[3], [4]] [5] (by decide) (by decide)⟩

/-- Claim C5: the block returned by `transform_audio` has, after the final
normalization step, peak magnitude at most 1.0; and whenever the
pre-normalization peak is zero the division is skipped and the (necessarily
all-zero) block is returned unchanged. -/
theorem C5_normalization_peak :
    (∀ (ext : ExtDSP) (s : ProcState) (x : List ℚ), x ≠ [] →
      maxAbs (transform_audio ext s x) ≤ 1) ∧
    (∀ y : List ℚ, maxAbs y = 0 → normalize_block y = y ∧ ∀ v ∈ y, v = 0) := by
  constructor
  · intro ext s x _
    unfold transform_audio
    dsimp only
    exact normalize_block_peak _
  · intro y h0
    exact ⟨normalize_block_of_maxAbs_eq_zero h0, eq_zero_of_maxAbs_eq_zero h0⟩

/-- Concrete instance of claim C5 on the blocks [3, -4] and [0, 0]. -/
theorem C5_normalization_peak_witness :
    maxAbs (transform_audio idExt initState [3, -4]) ≤ 1 ∧
    (normalize_block [(0 : ℚ), 0] = [0, 0] ∧ ∀ v ∈ [(0 : ℚ), 0], v = 0) := by
  obtain ⟨h1, h2⟩ := C5_normalization_peak
  exact ⟨h1 idExt initState [3, -4] (by decide), h2 [0, 0] (by decide)⟩

/-- Claim C6: an EQ band whose frequency normalized by the Nyquist frequency
is not strictly inside (0, 1) is skipped entirely — the signal passes
through unmodified for that band, whatever the external filter routines
would do. -/
theorem C6_eq_band_skip (lib : FilterLib) (sample_rate : ℚ) (x : List ℚ)
    (freq gain : ℚ)
    (h : ¬(0 < freq / (sample_rate / 2) ∧ freq / (sample_rate / 2) < 1)) :
    eq_band_step lib sample_rate x (freq, gain) = x := by
  unfold eq_band_step
  dsimp only
  rw [if_neg h]

/-- Concrete instance of claim C6: a band at the Nyquist frequency itself
(normalized frequency exactly 1) passes the signal through. -/
theorem C6_eq_band_skip_witness :
    eq_band_step idFilterLib 44100 [1, 2] (22050, 3) = [1, 2] :=
  C6_eq_band_skip idFilterLib 44100 [1, 2] 22050 3 (by norm_num)

/-- Claim C7: whenever the delay converted to samples exceeds the block
length, the echo effect returns the input block unchanged, for every
feedback and wet level. -/
theorem C7_echo_delay_exceeds (sample_rate delay_ms feedback wet_level : ℚ)
    (x : List ℚ)
    (h : (x.length : ℤ) < ratTrunc (delay_ms * sample_rate / 1000)) :
    apply_echo sample_rate delay_ms feedback wet_level x = x := by
  unfold apply_echo
  dsimp only
  rw [if_pos (le_of_lt h)]

/-- Concrete instance of claim C7: a one-second delay on a 3-sample block at
44100 Hz. -/
theorem C7_echo_delay_exceeds_witness :
    apply_echo 44100 1000 (3/10) (3/10) [1, 2, 3] = [1, 2, 3] :=
  C7_echo_delay_exceeds 44100 1000 (3/10) (3/10) [1, 2, 3] (by norm_num [ratTrunc])

/-- Claim C8: a block with fewer than 0.1 seconds of samples (fewer than 0.1
times the sample rate) is reported as not watermarked — `(false, none)` —
whatever its contents and whatever the FFT analysis would report. -/
theorem C8_detect_short_block (α : Type) (analyze : List ℚ → Bool × Option α)
    (sample_rate : ℚ) (x : List ℚ)
    (h : (x.length : ℚ) < sample_rate * (1/10)) :
    detect_watermark analyze sample_rate x = (false, none) := by
  unfold detect_watermark
  rw [if_pos h]

/-- Concrete instance of claim C8: 100 samples at 44100 Hz, with an analysis
that would report detection. -/
theorem C8_detect_short_block_witness :
    detect_watermark (fun _ => (true, some 0)) 44100
      (List.replicate 100 (1 : ℚ)) = (false, (none : Option ℕ)) :=
  C8_detect_short_block ℕ (fun _ => (true, some 0)) 44100
    (List.replicate 100 1) (by norm_num [List.length_replicate])

/-- Claim C9: setting a profile name outside the hardcoded set {original,
male, female, child, robot, elderly} stores the new name but leaves the
pitch and formant factors untouched (and raises no error). -/
theorem C9_unknown_profile_keeps_factors (s : ProcState) (name : String)
    (h : name ∉ ["original", "male", "female", "child", "robot", "elderly"]) :
    set_voice_profile s name = { s with voice_profile := name } := by
  have e1 : (("original" : String) == name) = false :=
    beq_eq_false_iff_ne.mpr fun heq => h (heq ▸ (by decide))
  have e2 : (("male" : String) == name) = false :=
    beq_eq_false_iff_ne.mpr fun heq => h (heq ▸ (by decide))
  have e3 : (("female" : String) == name) = false :=
    beq_eq_false_iff_ne.mpr fun heq => h (heq ▸ (by decide))
  have e4 : (("child" : String) == name) = false :=
    beq_eq_false_iff_ne.mpr fun heq => h (heq ▸ (by decide))
  have e5 : (("robot" : String) == name) = false :=
    beq_eq_false_iff_ne.mpr fun heq => h (heq ▸ (by decide))
  have e6 : (("elderly" : String) == name) = false :=
    beq_eq_false_iff_ne.mpr fun heq => h (heq ▸ (by decide))
  have h1 : processor_profiles.find? (fun p => p.1 == name) = none := by
    simp [processor_profiles, List.find?, e1, e2, e3, e4, e5, e6]
  unfold set_voice_profile
  rw [h1]

/-- Concrete instance of claim C9: the registry-only name male_deep. -/
theorem C9_unknown_profile_keeps_factors_witness :
    set_voice_profile initState "male_deep" =
      { initState with voice_profile := "male_deep" } :=
  C9_unknown_profile_keeps_factors initState "male_deep" (by decide)

/-- Claim C10: embedding a watermark into a length-0 block returns the block
unchanged — no watermark signal is generated or added. -/
theorem C10_embed_empty (generate : ℚ → List ℚ) (sample_rate : ℚ)
    (x : List ℚ) (h : x.length = 0) :
    embed_watermark generate sample_rate x = x := by
  unfold embed_watermark
  rw [if_pos h]

/-- Concrete instance of claim C10: the empty block with a generator that
would produce a nonempty watermark. -/
theorem C10_embed_empty_witness :
    embed_watermark (fun _ => [1, 2]) 44100 [] = [] :=
  C10_embed_empty (fun _ => [1, 2]) 44100 [] rfl

end VoiceMasking
